import Mathlib

/-!
Verification of the export-control dataset pipeline core against its
specification.  The definitions below are shallow embeddings of the Python
source under `src/`:

* `src/utils/progress.py`   — `StateManager` (checkpoint store, resolver)
* `src/utils/retry.py`      — `retry_async` combinator
* `src/config/patterns.py`  — `determine_license_need` classifier
* `src/extractors/ocr_extractor.py` / `pdf_extractor.py` — per-unit assembly
* `src/pipeline/step2_tech_specs.py` / `step3_permit_license.py` — merge

Python `dict`s (insertion ordered, unique keys) are modelled as association
lists mutated with `dictInsert`, which replaces in place on an existing key
and appends otherwise, exactly like `d[k] = v`.
-/

/-- Python `d[k]` lookup on an insertion-ordered dict modelled as an
association list (keys are unique in any list built with `dictInsert`). -/
def dictLookup {α : Type} (d : List (String × α)) (k : String) : Option α :=
  match d with
  | [] => none
  | (k₁, v) :: rest => if k₁ = k then some v else dictLookup rest k

/-- Python `d[k] = v`: replace the value in place if the key exists,
otherwise append a new entry. -/
def dictInsert {α : Type} (k : String) (v : α) : List (String × α) → List (String × α)
  | [] => [(k, v)]
  | (k₁, v₁) :: rest =>
    if k₁ = k then (k, v) :: rest else (k₁, v₁) :: dictInsert k v rest

/-- The keys of a dict, in insertion order. -/
def dictKeys {α : Type} (d : List (String × α)) : List String :=
  d.map Prod.fst

/-- The checkpoint document of `StateManager._create_initial_state`
(src/utils/progress.py lines 44-57). -/
structure CheckpointState where
  step : String
  started_at : String
  updated_at : String
  total_items : Nat
  processed_items : Nat
  failed_items : Nat
  current_batch : Nat
  processed_saf_numbers : List String
  failed_saf_numbers : List (String × String)
  processed_files : List (String × List String)
deriving DecidableEq

/-- Embedding of `StateManager._create_initial_state`: the fresh state for one step. -/
def create_initial_state (step now : String) : CheckpointState :=
  { step := step
    started_at := now
    updated_at := now
    total_items := 0
    processed_items := 0
    failed_items := 0
    current_batch := 0
    processed_saf_numbers := []
    failed_saf_numbers := []
    processed_files := [] }

/-- Embedding of `StateManager.mark_processed` (progress.py lines 67-71): append the id if
absent and refresh the derived counter; no-op when already present. -/
def mark_processed (s : CheckpointState) (saf_number : String) : CheckpointState :=
  if saf_number ∈ s.processed_saf_numbers then s
  else
    let l := s.processed_saf_numbers ++ [saf_number]
    { s with processed_saf_numbers := l, processed_items := l.length }

/-- Embedding of `StateManager.mark_failed` (progress.py lines 73-76): upsert into the
failed map and refresh the derived counter. -/
def mark_failed (s : CheckpointState) (saf_number error : String) : CheckpointState :=
  let d := dictInsert saf_number error s.failed_saf_numbers
  { s with failed_saf_numbers := d, failed_items := d.length }

/-- Embedding of `StateManager.mark_files_processed` (progress.py lines 78-82): replace the
per-unit snapshot with exactly the given file list. -/
def mark_files_processed (s : CheckpointState) (saf_number : String)
    (files : List String) : CheckpointState :=
  { s with processed_files := dictInsert saf_number files s.processed_files }

/-- Embedding of `StateManager.set_total` (progress.py lines 119-121). -/
def set_total (s : CheckpointState) (total : Nat) : CheckpointState :=
  { s with total_items := total }

/-- Embedding of `StateManager.update_batch` (progress.py lines 123-125). -/
def update_batch (s : CheckpointState) (batch_num : Nat) : CheckpointState :=
  { s with current_batch := batch_num }

/-- One checkpoint-store mutation, as invoked by the pipeline steps. -/
inductive CheckpointOp where
  | markProcessed (saf_number : String)
  | markFailed (saf_number error : String)
  | markFilesProcessed (saf_number : String) (files : List String)
  | setTotal (total : Nat)
  | updateBatch (batch_num : Nat)

/-- Apply one mutation to the checkpoint state. -/
def applyOp (s : CheckpointState) : CheckpointOp → CheckpointState
  | .markProcessed id => mark_processed s id
  | .markFailed id e => mark_failed s id e
  | .markFilesProcessed id files => mark_files_processed s id files
  | .setTotal n => set_total s n
  | .updateBatch n => update_batch s n

/-- Apply a sequence of mutations, oldest first. -/
def applyOps (s : CheckpointState) (ops : List CheckpointOp) : CheckpointState :=
  ops.foldl applyOp s

/-- Python truthiness of `set(files) - set(old)`: at least one current file
ref is absent from the snapshot. -/
def hasNewFile (files old : List String) : Bool :=
  files.any (fun f => decide (f ∉ old))

/-- Embedding of `StateManager.get_saf_numbers_with_new_files` (progress.py lines 92-117),
iterating the mapping dict in order: keep an id when it has no snapshot entry
or when `set(mapping[id]) - set(snapshot[id])` is non-empty. -/
def get_saf_numbers_with_new_files (processed_files : List (String × List String)) :
    List (String × List String) → List String
  | [] => []
  | (saf_number, files) :: rest =>
    match dictLookup processed_files saf_number with
    | none => saf_number :: get_saf_numbers_with_new_files processed_files rest
    | some old =>
      if hasNewFile files old then
        saf_number :: get_saf_numbers_with_new_files processed_files rest
      else
        get_saf_numbers_with_new_files processed_files rest

/-- Outcome of one invocation of a function wrapped by `retry_async`
(src/utils/retry.py lines 48-84): a success value, an exception in the
configured retryable set, or an exception outside it. -/
inductive CallOutcome (α : Type) where
  | ok (v : α)
  | retryableErr (e : String)
  | fatalErr (e : String)
deriving DecidableEq

/-- What the wrapper hands back to its caller: a return value, an uncaught
non-retryable exception, or the re-raised last retryable exception (`none`
can only occur when `max_attempts = 0`, where Python would raise `None`). -/
inductive RetryResult (α : Type) where
  | ok (v : α)
  | raisedFatal (e : String)
  | raisedLast (e : Option String)
deriving DecidableEq

/-- The `for attempt in range(max_attempts)` loop of `retry_async`.
`remaining` is `max_attempts - attempt`; `f attempt` is the wrapped call's
outcome on its `attempt`-th invocation (0-based).  Returns the wrapper's
result, the number of invocations made, and the list of back-off waits in
order.  A retryable exception sleeps `current_delay` and multiplies it by
`backoff` unless this was the last attempt; a non-retryable exception
escapes the `except` clause at once. -/
def retryLoop {α : Type} (f : Nat → CallOutcome α) (backoff : ℚ) :
    Nat → Nat → ℚ → Option String → RetryResult α × Nat × List ℚ
  | 0, _, _, last => (.raisedLast last, 0, [])
  | remaining + 1, attempt, current_delay, _ =>
    match f attempt with
    | .ok v => (.ok v, 1, [])
    | .fatalErr e => (.raisedFatal e, 1, [])
    | .retryableErr e =>
      if remaining = 0 then
        (.raisedLast (some e), 1, [])
      else
        let r := retryLoop f backoff remaining (attempt + 1) (current_delay * backoff) (some e)
        (r.1, r.2.1 + 1, current_delay :: r.2.2)

/-- Embedding of `retry_async(max_attempts, delay, backoff, exceptions)` applied to a
function whose successive invocations behave as `f`. -/
def retry_async {α : Type} (f : Nat → CallOutcome α)
    (max_attempts : Nat) (delay backoff : ℚ) : RetryResult α × Nat × List ℚ :=
  retryLoop f backoff max_attempts 0 delay none

/-- The priority pattern list `LICENSE_REQUIRED_PATTERNS`
(src/config/patterns.py lines 24-35), kept as opaque regex sources. -/
def LICENSE_REQUIRED_PATTERNS : List String :=
  ["согласовывает\\s+выдачу",
   "положительное\\s+экспертное\\s+заключение",
   "выдано.*заключение.*разрешительный\\s+документ",
   "требуется\\s+(?:получение\\s+)?лицензи[яию]",
   "подлежит\\s+лицензированию",
   "подлежит\\s+экспортному\\s+контролю",
   "включен[оа]?\\s+в\\s+(?:контрольные?\\s+)?списки?",
   "относится\\s+к\\s+контролируемым",
   "необходимо\\s+(?:получить\\s+)?разрешение",
   "выдать\\s+лицензию"]

/-- Embedding of `LICENSE_NOT_REQUIRED_PATTERNS` (src/config/patterns.py lines 10-21). -/
def LICENSE_NOT_REQUIRED_PATTERNS : List String :=
  ["не\\s+требуется\\s+получение\\s+лицензии",
   "не\\s+требуется\\s+получение\\s+разрешения",
   "не\\s+числится\\s+в\\s+лицензируемых\\s+товарах",
   "не\\s+возражает\\s+против\\s+ввоза",
   "не\\s+подлежит\\s+лицензированию",
   "не\\s+подлежит\\s+экспортному\\s+контролю",
   "лицензия\\s+не\\s+требуется",
   "разрешение\\s+не\\s+требуется",
   "не\\s+включен[оа]?\\s+в\\s+(?:контрольные?\\s+)?списки?",
   "не\\s+относится\\s+к\\s+контролируемым"]

/-- Embedding of `SOURCE_PRIORITY` (src/config/patterns.py lines 38-41). -/
def SOURCE_PRIORITY : List String := ["license_text", "permit_text"]

/-- Embedding of `_check_patterns` (src/config/patterns.py lines 44-52).  The regex engine
(`re.search` with `IGNORECASE`) is an external capability, abstracted as
`search pattern text`; the guard and the lowercase normalisation are the
source's.  A `none` text models a value that is not a `str`. -/
def check_patterns (search : String → String → Bool)
    (text : Option String) (patterns : List String) : Bool :=
  match text with
  | none => false
  | some t => if t = "" then false else patterns.any (fun p => search p t.toLower)

/-- The `for source_name in SOURCE_PRIORITY` loop body of
`determine_license_need` (src/config/patterns.py lines 72-87). -/
def determineLoop (search : String → String → Bool)
    (permit_text license_text : Option String) : List String → Option Bool
  | [] => none
  | source_name :: rest =>
    let text := if source_name = "license_text" then license_text else permit_text
    match text with
    | none => determineLoop search permit_text license_text rest
    | some t =>
      if t = "" then determineLoop search permit_text license_text rest
      else if check_patterns search (some t) LICENSE_REQUIRED_PATTERNS then some true
      else if check_patterns search (some t) LICENSE_NOT_REQUIRED_PATTERNS then some false
      else determineLoop search permit_text license_text rest

/-- Embedding of `determine_license_need` (src/config/patterns.py lines 55-87). -/
def determine_license_need (search : String → String → Bool)
    (permit_text license_text : Option String) : Option Bool :=
  determineLoop search permit_text license_text SOURCE_PRIORITY

/-- Modelled from the spec: `classify(primaryText, secondaryText,
requiredPatterns, notRequiredPatterns)` of §4.6, transcribed from the spec's
words — evaluate the sources in priority order, skip a null/empty source, on
the first non-empty source return `Required` if any required pattern matches
the lowercased text, else `NotRequired` if any not-required pattern matches,
else advance; `Unknown` when no source decides. -/
def classify_spec (search : String → String → Bool)
    (req notReq : List String) : List (Option String) → Option Bool
  | [] => none
  | text :: rest =>
    match text with
    | none => classify_spec search req notReq rest
    | some t =>
      if t = "" then classify_spec search req notReq rest
      else if req.any (fun p => search p t.toLower) then some true
      else if notReq.any (fun p => search p t.toLower) then some false
      else classify_spec search req notReq rest

/-- Embedding of `object_name.split("/")[-1]` as used by `OCRExtractor`
(src/extractors/ocr_extractor.py lines 44 and 83). -/
def lastPathComponent (s : String) : String :=
  (s.splitOn "/").getLastD ""

/-- Python truthiness of the `error` component of a `(text, error)` pair:
`None` and the empty string are falsy. -/
def errTruthy : Option String → Bool
  | none => false
  | some e => decide (e ≠ "")

/-- The default separator of `process_saf_files` and `extract_multiple`. -/
def DEFAULT_SEPARATOR : String := "\n\n---\n\n"

/-- The `for file_path, (text, error) in zip(files, results)` loop of
`OCRExtractor.process_saf_files` (ocr_extractor.py lines 78-90), returning
the accumulated `(texts, processed, errors)`.  The loop appends; the
recursion conses the head's contribution onto the rest, which yields the
same left-to-right order. -/
def assembleLoop : List (String × String × Option String) →
    List String × List String × List String
  | [] => ([], [], [])
  | (file_path, text, error) :: rest =>
    let acc := assembleLoop rest
    let filename := lastPathComponent file_path
    if errTruthy error then
      (acc.1, acc.2.1, (filename ++ ": " ++ error.getD "") :: acc.2.2)
    else if text.trim ≠ "" then
      (text :: acc.1, filename :: acc.2.1, acc.2.2)
    else
      (acc.1, acc.2.1, (filename ++ ": Empty OCR result") :: acc.2.2)

/-- Embedding of `OCRExtractor.process_saf_files` (ocr_extractor.py lines 52-93) after the
listing call: `files` is the unit's file list, and `outcome f` is the
`(text, error)` pair task `process_file f` resolves to.  `asyncio.gather`
returns results positionally, in task order, whatever the completion order,
so the zipped list is `files.zip (files.map outcome)`. -/
def process_saf_files (outcome : String → String × Option String)
    (files : List String) (separator : String) :
    String × List String × Option (List String) :=
  if files = [] then ("", [], none)
  else
    let acc := assembleLoop (files.zip (files.map outcome))
    (if acc.1 = [] then "" else String.intercalate separator acc.1,
     acc.2.1,
     if acc.2.2 = [] then none else some acc.2.2)

/-- Per-file outcome for `PDFExtractor.extract_multiple`: `cls.extract` either
returns text or raises a `PDFExtractionError` with a message. -/
inductive PdfOutcome where
  | ok (text : String)
  | extractionError (msg : String)

/-- The `for filename, file_data in files_data` loop of
`PDFExtractor.extract_multiple` (pdf_extractor.py lines 115-124). -/
def pdfLoop : List (String × PdfOutcome) → List String × List String × List String
  | [] => ([], [], [])
  | (filename, outcome) :: rest =>
    let acc := pdfLoop rest
    match outcome with
    | .ok text =>
      if text.trim ≠ "" then
        (text :: acc.1, filename :: acc.2.1, acc.2.2)
      else
        (acc.1, acc.2.1, (filename ++ ": Empty text extracted") :: acc.2.2)
    | .extractionError msg =>
      (acc.1, acc.2.1, (filename ++ ": " ++ msg) :: acc.2.2)

/-- Embedding of `PDFExtractor.extract_multiple` (pdf_extractor.py lines 95-127): each
`(filename, data)` pair is extracted in sequence; `outcome` gives the result
of `cls.extract` on each file's data. -/
def extract_multiple (outcome : String → PdfOutcome)
    (filenames : List String) (separator : String) :
    String × List String × Option (List String) :=
  let acc := pdfLoop (filenames.map (fun n => (n, outcome n)))
  (if acc.1 = [] then "" else String.intercalate separator acc.1,
   acc.2.1,
   if acc.2.2 = [] then none else some acc.2.2)

/-- One row of the consolidated step dataset: the unit id column
`saf_number` plus its extracted text (the remaining columns travel with the
row and are irrelevant to the merge, which filters on `saf_number` only). -/
structure DataRecord where
  saf_number : String
  text : String
deriving DecidableEq

/-- The unit-id column of a dataset. -/
def recordKeys (df : List DataRecord) : List String :=
  df.map DataRecord.saf_number

/-- The end-of-run merge of `Step2TechSpecs.run` (step2_tech_specs.py lines
178-192) and `Step3PermitLicense.run` (step3_permit_license.py lines
214-228): when `incremental` is set, the prior consolidated dataset exists
(`prior = some df_existing`) and the new result set is non-empty, drop every
prior row whose `saf_number` occurs in the new set and append the new rows;
otherwise the new result set alone is written out. -/
def merge_results (incremental : Bool) (prior : Option (List DataRecord))
    (df_new : List DataRecord) : List DataRecord :=
  match prior with
  | some df_existing =>
    if incremental ∧ df_new ≠ [] then
      df_existing.filter (fun r => decide (r.saf_number ∉ recordKeys df_new)) ++ df_new
    else df_new
  | none => df_new

/-- First record of a dataset carrying the given unit id, if any. -/
def recordLookup (df : List DataRecord) (id : String) : Option DataRecord :=
  df.find? (fun r => r.saf_number = id)

/-- Result type of loading: `StateManager.load` can hand back a parsed state or fail; the spec's §7
taxonomy names the failure `DataIntegrityError` (the uncaught parse
exception propagating out of `load`). -/
inductive LoadOutcome (σ : Type) where
  | ok (s : σ)
  | dataIntegrityError
deriving DecidableEq

/-- Embedding of `StateManager.load` (src/utils/progress.py lines 28-35).  The state file
is `none` when absent and `some raw` when present with content `raw`; the
JSON parser (stdlib `json.load`) is the abstract capability `parse`, whose
`none` models a parse exception.  A present file is parsed — a parse failure
propagates (never replaced by a fresh state); only an absent file yields
`_create_initial_state`. -/
def load {σ : Type} (parse : String → Option σ) (initial : σ)
    (state_file : Option String) : LoadOutcome σ :=
  match state_file with
  | none => .ok initial
  | some raw =>
    match parse raw with
    | some s => .ok s
    | none => .dataIntegrityError

/-- Phase of one per-file extraction task of `OCRExtractor.process_file`
(ocr_extractor.py lines 31-50): not yet past `async with self.semaphore`
(idle), holding the semaphore with its external call in flight (running), or
finished and having released it (done). -/
inductive TaskPhase where
  | idle
  | running
  | done
deriving DecidableEq

/-- Scheduler state for one run: the phase of every per-file task of every
unit (all drawn from the same list, because the extractor instance — and so
its cached `self._semaphore` — is shared by all units of the run), plus the
semaphore's available-permit count. -/
structure SemState where
  tasks : List TaskPhase
  avail : Nat
deriving DecidableEq

/-- Number of extraction calls in flight. -/
def inFlightCount (s : SemState) : Nat :=
  s.tasks.countP (fun t => decide (t = TaskPhase.running))

/-- Interleaving semantics of `asyncio.Semaphore`
(ocr_extractor.py lines 25-29 and 41): an idle task may enter the
`async with` block only when a permit is available, taking one; a running
task releases its permit when its call completes.  The scheduler picks
steps in any order. -/
inductive SemStep : SemState → SemState → Prop
  | start (tasks : List TaskPhase) (n i : Nat)
      (h : tasks[i]? = some TaskPhase.idle) :
      SemStep ⟨tasks, n + 1⟩ ⟨tasks.set i TaskPhase.running, n⟩
  | finish (tasks : List TaskPhase) (n i : Nat)
      (h : tasks[i]? = some TaskPhase.running) :
      SemStep ⟨tasks, n⟩ ⟨tasks.set i TaskPhase.done, n + 1⟩

/-- The start of a run: `asyncio.Semaphore(self._max_concurrent)` holds `c`
permits and none of the run's `numTasks` per-file tasks has started. -/
def semInit (c numTasks : Nat) : SemState :=
  ⟨List.replicate numTasks TaskPhase.idle, c⟩

/-- States the scheduler can reach during the run. -/
def SemReachable (c numTasks : Nat) : SemState → Prop :=
  Relation.ReflTransGen SemStep (semInit c numTasks)

lemma hasNewFile_iff (files old : List String) :
    hasNewFile files old = true ↔ ∃ f ∈ files, f ∉ old := by
  simp [hasNewFile]

lemma dictKeys_cons {α : Type} (k : String) (v : α) (d : List (String × α)) :
    dictKeys ((k, v) :: d) = k :: dictKeys d := rfl

lemma resolver_mem_keys (pf m : List (String × List String)) (x : String)
    (hx : x ∈ get_saf_numbers_with_new_files pf m) : x ∈ dictKeys m := by
  induction m with
  | nil => simp [get_saf_numbers_with_new_files] at hx
  | cons hd tl ih =>
    obtain ⟨k, files⟩ := hd
    rw [dictKeys_cons]
    simp only [get_saf_numbers_with_new_files] at hx
    split at hx
    · rcases List.mem_cons.mp hx with h₁ | h₁
      · simp [h₁]
      · exact List.mem_cons_of_mem _ (ih h₁)
    · split at hx
      · rcases List.mem_cons.mp hx with h₁ | h₁
        · simp [h₁]
        · exact List.mem_cons_of_mem _ (ih h₁)
      · exact List.mem_cons_of_mem _ (ih hx)

lemma resolver_mem_iff (pf m : List (String × List String)) (id : String)
    (hnodup : (dictKeys m).Nodup) :
    id ∈ get_saf_numbers_with_new_files pf m ↔
      ∃ files, dictLookup m id = some files ∧
        (dictLookup pf id = none ∨
          ∃ old, dictLookup pf id = some old ∧ ∃ f ∈ files, f ∉ old) := by
  induction m with
  | nil => simp [get_saf_numbers_with_new_files, dictLookup]
  | cons hd tl ih =>
    obtain ⟨k, files⟩ := hd
    have hk : k ∉ dictKeys tl := by
      simpa [dictKeys] using (List.nodup_cons.mp hnodup).1
    have htl : (dictKeys tl).Nodup := by
      simpa [dictKeys] using (List.nodup_cons.mp hnodup).2
    by_cases hid : k = id
    · subst hid
      have hnot : k ∉ get_saf_numbers_with_new_files pf tl :=
        fun hmem => hk (resolver_mem_keys pf tl k hmem)
      simp only [get_saf_numbers_with_new_files, dictLookup, if_pos rfl]
      cases h : dictLookup pf k with
      | none => simp [h, hnot]
      | some old =>
        by_cases hnew : hasNewFile files old
        · simp only [if_pos hnew]
          constructor
          · intro _
            exact ⟨files, rfl, Or.inr ⟨old, rfl, (hasNewFile_iff files old).mp hnew⟩⟩
          · intro _; exact List.mem_cons_self _ _
        · simp only [if_neg hnew]
          constructor
          · intro hmem; exact absurd hmem hnot
          · rintro ⟨files', hf, hcase⟩
            injection hf with hf; subst hf
            rcases hcase with hnone | ⟨old', hold, hex⟩
            · exact Option.noConfusion hnone
            · injection hold with hold; subst hold
              exact absurd ((hasNewFile_iff _ _).mpr hex) hnew
    · have step : id ∈ get_saf_numbers_with_new_files pf ((k, files) :: tl) ↔
          id ∈ get_saf_numbers_with_new_files pf tl := by
        simp only [get_saf_numbers_with_new_files]
        cases h : dictLookup pf k with
        | none => simp [hid, Ne.symm hid]
        | some old =>
          by_cases hnew : hasNewFile files old
          · simp [if_pos hnew, hid, Ne.symm hid]
          · simp [if_neg hnew]
      rw [step, ih htl]
      simp [dictLookup, hid]

/-- C1: an id is returned by `get_saf_numbers_with_new_files` iff it is a key
of the mapping and either has no snapshot entry or owns at least one mapping
file ref absent from its snapshot; in particular an id whose mapping files
are all contained in its snapshot (including after removals) is never
returned. -/
theorem resolver_membership_iff (pf m : List (String × List String)) (id : String)
    (hnodup : (dictKeys m).Nodup) :
    (id ∈ get_saf_numbers_with_new_files pf m ↔
      ∃ files, dictLookup m id = some files ∧
        (dictLookup pf id = none ∨
          ∃ old, dictLookup pf id = some old ∧ ∃ f ∈ files, f ∉ old)) ∧
    (∀ files old, dictLookup m id = some files → dictLookup pf id = some old →
      (∀ f ∈ files, f ∈ old) → id ∉ get_saf_numbers_with_new_files pf m) := by
  refine ⟨resolver_mem_iff pf m id hnodup, ?_⟩
  intro files old hm hpf hsub hmem
  rcases (resolver_mem_iff pf m id hnodup).mp hmem with ⟨files', hm', hcase⟩
  rw [hm] at hm'; injection hm' with hm'; subst hm'
  rcases hcase with hnone | ⟨old', hold, f, hf, hfold⟩
  · rw [hpf] at hnone; exact Option.noConfusion hnone
  · rw [hpf] at hold; injection hold with hold; subst hold
    exact hfold (hsub f hf)

/-- C1 witness: with snapshot `{A: [a/1.pdf]}` and mapping
`{A: [a/1.pdf, a/2.pdf]}` the resolver selects `A`; with the mapping shrunk
to `{A: [a/1.pdf]}` it does not. -/
theorem resolver_membership_iff_witness :
    "A" ∈ get_saf_numbers_with_new_files [("A", ["a/1.pdf"])]
        [("A", ["a/1.pdf", "a/2.pdf"])] ∧
    "A" ∉ get_saf_numbers_with_new_files [("A", ["a/1.pdf", "a/2.pdf"])]
        [("A", ["a/1.pdf"])] := by
  constructor
  · exact (resolver_membership_iff [("A", ["a/1.pdf"])]
      [("A", ["a/1.pdf", "a/2.pdf"])] "A" (by decide)).1.mpr
      ⟨["a/1.pdf", "a/2.pdf"], by decide, Or.inr ⟨["a/1.pdf"], by decide,
        "a/2.pdf", by decide, by decide⟩⟩
  · exact (resolver_membership_iff [("A", ["a/1.pdf", "a/2.pdf"])]
      [("A", ["a/1.pdf"])] "A" (by decide)).2 ["a/1.pdf"] ["a/1.pdf", "a/2.pdf"]
      (by decide) (by decide) (by decide)

lemma dictLookup_insert_self {α : Type} (k : String) (v : α) (d : List (String × α)) :
    dictLookup (dictInsert k v d) k = some v := by
  induction d with
  | nil => simp [dictInsert, dictLookup]
  | cons hd tl ih =>
    obtain ⟨k₁, v₁⟩ := hd
    by_cases h : k₁ = k
    · simp [dictInsert, h, dictLookup]
    · simp [dictInsert, h, dictLookup, ih]

lemma dictLookup_insert_ne {α : Type} (k₁ k : String) (v : α) (d : List (String × α))
    (h : k₁ ≠ k) : dictLookup (dictInsert k₁ v d) k = dictLookup d k := by
  induction d with
  | nil => simp [dictInsert, dictLookup, h]
  | cons hd tl ih =>
    obtain ⟨k₂, v₂⟩ := hd
    by_cases h₂ : k₂ = k₁
    · simp [dictInsert, h₂, dictLookup, h]
    · simp only [dictInsert, if_neg h₂, dictLookup]
      by_cases h₃ : k₂ = k
      · simp [h₃]
      · simp [h₃, ih]

lemma lookup_foldInsert_not_mem {α : Type} (m : List (String × α))
    (d : List (String × α)) (id : String) (hid : id ∉ dictKeys m) :
    dictLookup (m.foldl (fun d p => dictInsert p.1 p.2 d) d) id = dictLookup d id := by
  induction m generalizing d with
  | nil => rfl
  | cons hd tl ih =>
    obtain ⟨k, v⟩ := hd
    have hk : k ≠ id := fun h => hid (by simp [dictKeys, h])
    have htl : id ∉ dictKeys tl := fun h => hid (by simp [dictKeys]; right; simpa [dictKeys] using h)
    simp only [List.foldl_cons]
    rw [ih _ htl, dictLookup_insert_ne k id v d hk]

lemma lookup_foldInsert_mem {α : Type} (m : List (String × α)) (d : List (String × α))
    (id : String) (files : α) (hnodup : (dictKeys m).Nodup) (hmem : (id, files) ∈ m) :
    dictLookup (m.foldl (fun d p => dictInsert p.1 p.2 d) d) id = some files := by
  induction m generalizing d with
  | nil => simp at hmem
  | cons hd tl ih =>
    obtain ⟨k, v⟩ := hd
    have hcons : (k :: dictKeys tl).Nodup := hnodup
    have hk : k ∉ dictKeys tl := (List.nodup_cons.mp hcons).1
    have htl : (dictKeys tl).Nodup := (List.nodup_cons.mp hcons).2
    rcases List.mem_cons.mp hmem with heq | htlmem
    · injection heq with h₁ h₂
      subst h₁; subst h₂
      simp only [List.foldl_cons]
      rw [lookup_foldInsert_not_mem tl _ id hk, dictLookup_insert_self]
    · simp only [List.foldl_cons]
      exact ih (dictInsert k v d) htl htlmem

lemma hasNewFile_self (l : List String) : hasNewFile l l = false := by
  simp [hasNewFile]

lemma resolver_empty (pf m : List (String × List String))
    (h : ∀ p ∈ m, dictLookup pf p.1 = some p.2) :
    get_saf_numbers_with_new_files pf m = [] := by
  induction m with
  | nil => rfl
  | cons hd tl ih =>
    obtain ⟨k, files⟩ := hd
    have hhead : dictLookup pf k = some files := h (k, files) (List.mem_cons_self _ _)
    simp only [get_saf_numbers_with_new_files, hhead, hasNewFile_self,
      Bool.false_eq_true, if_false]
    exact ih (fun p hp => h p (List.mem_cons_of_mem _ hp))

lemma state_fold_processed_files (s : CheckpointState) (m : List (String × List String)) :
    (m.foldl (fun st p => mark_files_processed st p.1 p.2) s).processed_files
      = m.foldl (fun d p => dictInsert p.1 p.2 d) s.processed_files := by
  induction m generalizing s with
  | nil => rfl
  | cons hd tl ih =>
    simp only [List.foldl_cons]
    rw [ih]
    rfl

/-- C6: starting from any checkpoint state, recording
`mark_files_processed id mapping[id]` as the last snapshot update for every
unit id of the mapping (the state after a fully successful run — the update
replaces the prior snapshot) makes the resolver select zero units for that
same mapping. -/
theorem second_run_selects_nothing (s : CheckpointState)
    (m : List (String × List String)) (hnodup : (dictKeys m).Nodup) :
    get_saf_numbers_with_new_files
      ((m.foldl (fun st p => mark_files_processed st p.1 p.2) s).processed_files) m
      = [] := by
  rw [state_fold_processed_files]
  exact resolver_empty _ m
    (fun p hp => lookup_foldInsert_mem m s.processed_files p.1 p.2 hnodup hp)

/-- C6 witness: a full run over the mapping `{A: [a/1.pdf]}` from the fresh
initial state leaves a snapshot against which the same mapping selects
nothing. -/
theorem second_run_selects_nothing_witness :
    get_saf_numbers_with_new_files
      (([("A", ["a/1.pdf"])].foldl (fun st p => mark_files_processed st p.1 p.2)
        (create_initial_state "step2_tech_specs" "t0")).processed_files)
      [("A", ["a/1.pdf"])] = [] :=
  second_run_selects_nothing (create_initial_state "step2_tech_specs" "t0")
    [("A", ["a/1.pdf"])] (by decide)

lemma mem_dictKeys_insert {α : Type} (k x : String) (v : α) (d : List (String × α)) :
    x ∈ dictKeys (dictInsert k v d) ↔ x = k ∨ x ∈ dictKeys d := by
  induction d with
  | nil => simp [dictInsert, dictKeys]
  | cons hd tl ih =>
    obtain ⟨k₁, v₁⟩ := hd
    by_cases h : k₁ = k
    · subst h
      simp [dictInsert, dictKeys_cons]
    · rw [show dictInsert k v ((k₁, v₁) :: tl) = (k₁, v₁) :: dictInsert k v tl by
        simp [dictInsert, h]]
      rw [dictKeys_cons, dictKeys_cons]
      simp only [List.mem_cons, ih]
      tauto

lemma dictInsert_keys_nodup {α : Type} (k : String) (v : α) (d : List (String × α))
    (h : (dictKeys d).Nodup) : (dictKeys (dictInsert k v d)).Nodup := by
  induction d with
  | nil => simp [dictInsert, dictKeys]
  | cons hd tl ih =>
    obtain ⟨k₁, v₁⟩ := hd
    have hcons : (k₁ :: dictKeys tl).Nodup := h
    by_cases hk : k₁ = k
    · subst hk
      rw [show dictInsert k₁ v ((k₁, v₁) :: tl) = (k₁, v) :: tl by simp [dictInsert]]
      exact hcons
    · rw [show dictInsert k v ((k₁, v₁) :: tl) = (k₁, v₁) :: dictInsert k v tl by
        simp [dictInsert, hk]]
      have htl := ih (List.nodup_cons.mp hcons).2
      refine List.nodup_cons.mpr ⟨?_, htl⟩
      intro hmem
      rcases (mem_dictKeys_insert k k₁ v tl).mp hmem with heq | hmem₁
      · exact hk heq
      · exact (List.nodup_cons.mp hcons).1 hmem₁

/-- The implicit bookkeeping invariant of the checkpoint store: both derived
counters agree with the collections they summarise, and the failed map has
no duplicate keys. -/
def CounterInv (s : CheckpointState) : Prop :=
  s.processed_items = s.processed_saf_numbers.length ∧
  s.failed_items = s.failed_saf_numbers.length ∧
  (dictKeys s.failed_saf_numbers).Nodup

lemma counterInv_applyOp (s : CheckpointState) (op : CheckpointOp)
    (h : CounterInv s) : CounterInv (applyOp s op) := by
  obtain ⟨h₁, h₂, h₃⟩ := h
  cases op with
  | markProcessed id =>
    simp only [applyOp, mark_processed]
    by_cases hmem : id ∈ s.processed_saf_numbers
    · rw [if_pos hmem]; exact ⟨h₁, h₂, h₃⟩
    · rw [if_neg hmem]; exact ⟨rfl, h₂, h₃⟩
  | markFailed id e =>
    exact ⟨h₁, rfl, dictInsert_keys_nodup id e s.failed_saf_numbers h₃⟩
  | markFilesProcessed id files => exact ⟨h₁, h₂, h₃⟩
  | setTotal n => exact ⟨h₁, h₂, h₃⟩
  | updateBatch n => exact ⟨h₁, h₂, h₃⟩

lemma counterInv_applyOps (s : CheckpointState) (ops : List CheckpointOp)
    (h : CounterInv s) : CounterInv (applyOps s ops) := by
  induction ops generalizing s with
  | nil => exact h
  | cons op rest ih => exact ih (applyOp s op) (counterInv_applyOp s op h)

/-- C10: in every state reachable from the fresh initial state by
`mark_processed`, `mark_failed`, `mark_files_processed`, `set_total` and
`update_batch`, the counter `processed_items` equals the number of entries of
`processed_saf_numbers` and `failed_items` equals the number of keys of the
`failed_saf_numbers` map. -/
theorem derived_counters_consistent (step now : String) (ops : List CheckpointOp) :
    (applyOps (create_initial_state step now) ops).processed_items
      = (applyOps (create_initial_state step now) ops).processed_saf_numbers.length ∧
    (applyOps (create_initial_state step now) ops).failed_items
      = (dictKeys (applyOps (create_initial_state step now) ops).failed_saf_numbers).dedup.length := by
  have hinit : CounterInv (create_initial_state step now) := ⟨rfl, rfl, List.nodup_nil⟩
  obtain ⟨h₁, h₂, h₃⟩ := counterInv_applyOps (create_initial_state step now) ops hinit
  refine ⟨h₁, ?_⟩
  rw [List.dedup_eq_self.mpr h₃]
  rw [h₂]
  simp [dictKeys]

/-- C7: across all five checkpoint mutations, membership of the processed set
is monotonic; `mark_processed` is idempotent; `mark_failed` never touches the
processed set and `mark_processed` never touches the failed map, so one unit
id can sit in both at the same time. -/
theorem checkpoint_processed_monotone :
    (∀ (s : CheckpointState) (op : CheckpointOp) (id : String),
      id ∈ s.processed_saf_numbers → id ∈ (applyOp s op).processed_saf_numbers) ∧
    (∀ (s : CheckpointState) (id : String),
      mark_processed (mark_processed s id) id = mark_processed s id) ∧
    (∀ (s : CheckpointState) (id error : String),
      (mark_failed s id error).processed_saf_numbers = s.processed_saf_numbers) ∧
    (∀ (s : CheckpointState) (id : String),
      (mark_processed s id).failed_saf_numbers = s.failed_saf_numbers) ∧
    ("A" ∈ (mark_processed (mark_failed (create_initial_state "step" "t") "A" "boom")
        "A").processed_saf_numbers ∧
      "A" ∈ dictKeys (mark_processed (mark_failed (create_initial_state "step" "t")
        "A" "boom") "A").failed_saf_numbers) := by
  refine ⟨?_, ?_, ?_, ?_, by decide, by decide⟩
  · intro s op id hmem
    cases op with
    | markProcessed id₁ =>
      simp only [applyOp, mark_processed]
      by_cases h : id₁ ∈ s.processed_saf_numbers
      · rw [if_pos h]; exact hmem
      · rw [if_neg h]; exact List.mem_append_left _ hmem
    | markFailed id₁ e => exact hmem
    | markFilesProcessed id₁ files => exact hmem
    | setTotal n => exact hmem
    | updateBatch n => exact hmem
  · intro s id
    have habsorb : ∀ (t : CheckpointState), id ∈ t.processed_saf_numbers →
        mark_processed t id = t := by
      intro t ht
      unfold mark_processed
      rw [if_pos ht]
    by_cases h : id ∈ s.processed_saf_numbers
    · rw [habsorb s h]
      exact habsorb s h
    · have hmem : id ∈ (mark_processed s id).processed_saf_numbers := by
        simp [mark_processed, h]
      exact habsorb _ hmem
  · intro s id error; rfl
  · intro s id
    simp only [mark_processed]
    by_cases h : id ∈ s.processed_saf_numbers
    · rw [if_pos h]
    · rw [if_neg h]

/-- C7 witness: after marking `A` failed and then processed from the initial
state, a further `update_batch` keeps `A` in the processed set. -/
theorem checkpoint_processed_monotone_witness :
    "A" ∈ (applyOp (mark_processed (mark_failed (create_initial_state "step" "t")
      "A" "boom") "A") (.updateBatch 1)).processed_saf_numbers :=
  checkpoint_processed_monotone.1
    (mark_processed (mark_failed (create_initial_state "step" "t") "A" "boom") "A")
    (.updateBatch 1) "A" (by decide)

lemma waits_succ (d B : ℚ) (k : Nat) :
    (List.range (k + 1)).map (fun i => d * B ^ i)
      = d :: (List.range k).map (fun i => d * B * B ^ i) := by
  rw [List.range_succ_eq_map, List.map_cons, List.map_map]
  congr 1
  · simp
  · apply List.map_congr_left
    intro i _
    simp only [Function.comp_apply, pow_succ]
    ring

lemma retryLoop_cons_retry {α : Type} (f : Nat → CallOutcome α) (B : ℚ)
    (rem attempt : Nat) (d : ℚ) (last : Option String) (e : String)
    (he : f attempt = .retryableErr e) (hrem : rem ≠ 0) :
    retryLoop f B (rem + 1) attempt d last
      = ((retryLoop f B rem (attempt + 1) (d * B) (some e)).1,
         (retryLoop f B rem (attempt + 1) (d * B) (some e)).2.1 + 1,
         d :: (retryLoop f B rem (attempt + 1) (d * B) (some e)).2.2) := by
  simp only [retryLoop, he, if_neg hrem]

lemma retryLoop_ok {α : Type} (f : Nat → CallOutcome α) (B : ℚ) (k : Nat) :
    ∀ (rem attempt : Nat) (d : ℚ) (last : Option String) (v : α),
      k < rem →
      (∀ i < k, ∃ e, f (attempt + i) = .retryableErr e) →
      f (attempt + k) = .ok v →
      retryLoop f B rem attempt d last
        = (.ok v, k + 1, (List.range k).map (fun i => d * B ^ i)) := by
  induction k with
  | zero =>
    intro rem attempt d last v hrem _ hok
    obtain ⟨rem₁, rfl⟩ : ∃ q, rem = q + 1 := ⟨rem - 1, by omega⟩
    rw [Nat.add_zero] at hok
    simp [retryLoop, hok]
  | succ k ih =>
    intro rem attempt d last v hrem hfail hok
    obtain ⟨rem₁, rfl⟩ : ∃ q, rem = q + 1 := ⟨rem - 1, by omega⟩
    obtain ⟨e, he⟩ := hfail 0 (Nat.succ_pos k)
    rw [Nat.add_zero] at he
    have hrem₁ : rem₁ ≠ 0 := by omega
    have hrec := ih rem₁ (attempt + 1) (d * B) (some e) v (by omega)
      (fun i hi => by
        obtain ⟨e₁, he₁⟩ := hfail (i + 1) (by omega)
        exact ⟨e₁, by rw [show attempt + 1 + i = attempt + (i + 1) by omega]; exact he₁⟩)
      (by rw [show attempt + 1 + k = attempt + (k + 1) by omega]; exact hok)
    simp only [retryLoop, he, if_neg hrem₁, hrec, waits_succ]

lemma retryLoop_fatal {α : Type} (f : Nat → CallOutcome α) (B : ℚ) (k : Nat) :
    ∀ (rem attempt : Nat) (d : ℚ) (last : Option String) (e : String),
      k < rem →
      (∀ i < k, ∃ e₁, f (attempt + i) = .retryableErr e₁) →
      f (attempt + k) = .fatalErr e →
      retryLoop f B rem attempt d last
        = (.raisedFatal e, k + 1, (List.range k).map (fun i => d * B ^ i)) := by
  induction k with
  | zero =>
    intro rem attempt d last e hrem _ hfat
    obtain ⟨rem₁, rfl⟩ : ∃ q, rem = q + 1 := ⟨rem - 1, by omega⟩
    rw [Nat.add_zero] at hfat
    simp [retryLoop, hfat]
  | succ k ih =>
    intro rem attempt d last e hrem hfail hfat
    obtain ⟨rem₁, rfl⟩ : ∃ q, rem = q + 1 := ⟨rem - 1, by omega⟩
    obtain ⟨e₀, he⟩ := hfail 0 (Nat.succ_pos k)
    rw [Nat.add_zero] at he
    have hrem₁ : rem₁ ≠ 0 := by omega
    have hrec := ih rem₁ (attempt + 1) (d * B) (some e₀) e (by omega)
      (fun i hi => by
        obtain ⟨e₁, he₁⟩ := hfail (i + 1) (by omega)
        exact ⟨e₁, by rw [show attempt + 1 + i = attempt + (i + 1) by omega]; exact he₁⟩)
      (by rw [show attempt + 1 + k = attempt + (k + 1) by omega]; exact hfat)
    simp only [retryLoop, he, if_neg hrem₁, hrec, waits_succ]

lemma retryLoop_allfail {α : Type} (f : Nat → CallOutcome α) (B : ℚ) (es : Nat → String)
    (rem : Nat) :
    ∀ (attempt : Nat) (d : ℚ) (last : Option String),
      0 < rem →
      (∀ i < rem, f (attempt + i) = .retryableErr (es (attempt + i))) →
      retryLoop f B rem attempt d last
        = (.raisedLast (some (es (attempt + (rem - 1)))), rem,
            (List.range (rem - 1)).map (fun i => d * B ^ i)) := by
  induction rem with
  | zero => intro _ _ _ h; omega
  | succ r ih =>
    intro attempt d last _ hfail
    have he : f attempt = .retryableErr (es attempt) := by
      have := hfail 0 (by omega)
      rwa [Nat.add_zero] at this
    by_cases hr : r = 0
    · subst hr
      simp [retryLoop, he]
    · obtain ⟨r₁, rfl⟩ : ∃ q, r = q + 1 := ⟨r - 1, by omega⟩
      have hrec := ih (attempt + 1) (d * B) (some (es attempt)) (by omega)
        (fun i hi => by
          have := hfail (i + 1) (by omega)
          rw [show attempt + 1 + i = attempt + (i + 1) by omega]
          exact this)
      rw [retryLoop_cons_retry f B (r₁ + 1) attempt d last (es attempt) he hr, hrec]
      rw [show attempt + 1 + (r₁ + 1 - 1) = attempt + (r₁ + 1 + 1 - 1) by omega]
      dsimp only
      rw [show r₁ + 1 + 1 - 1 = r₁ + 1 - 1 + 1 by omega, waits_succ]

/-- C3: behaviour of `retry_async(max_attempts = N, delay = D, backoff = B)`:
a run of `k < N` retryable failures followed by a success returns the success
after exactly `k+1` invocations with waits `D, D·B, …, D·B^(k-1)`; `N`
retryable failures re-raise the last exception after exactly `N` invocations;
a non-retryable exception after `k` retryable ones propagates at once,
after `k+1` invocations and no further wait.  (Delay arithmetic is modelled
exactly over ℚ.) -/
theorem retry_async_behavior {α : Type} :
    (∀ (f : Nat → CallOutcome α) (N : Nat) (D B : ℚ) (k : Nat) (v : α),
      k < N → (∀ i < k, ∃ e, f i = .retryableErr e) → f k = .ok v →
      retry_async f N D B
        = (.ok v, k + 1, (List.range k).map (fun i => D * B ^ i))) ∧
    (∀ (f : Nat → CallOutcome α) (N : Nat) (D B : ℚ) (es : Nat → String),
      0 < N → (∀ i < N, f i = .retryableErr (es i)) →
      retry_async f N D B
        = (.raisedLast (some (es (N - 1))), N,
            (List.range (N - 1)).map (fun i => D * B ^ i))) ∧
    (∀ (f : Nat → CallOutcome α) (N : Nat) (D B : ℚ) (k : Nat) (e : String),
      k < N → (∀ i < k, ∃ e₁, f i = .retryableErr e₁) → f k = .fatalErr e →
      retry_async f N D B
        = (.raisedFatal e, k + 1, (List.range k).map (fun i => D * B ^ i))) := by
  refine ⟨?_, ?_, ?_⟩
  · intro f N D B k v hk hfail hok
    exact retryLoop_ok f B k N 0 D none v hk
      (fun i hi => by simpa using hfail i hi) (by simpa using hok)
  · intro f N D B es hN hfail
    have := retryLoop_allfail f B es N 0 D none hN
      (fun i hi => by simpa using hfail i hi)
    simpa using this
  · intro f N D B k e hk hfail hfat
    exact retryLoop_fatal f B k N 0 D none e hk
      (fun i hi => by simpa using hfail i hi) (by simpa using hfat)

/-- C3 witness: with `N = 3`, `D = 1`, `B = 2` — two retryable failures then
a success give 3 invocations and waits 1 then 2; three retryable failures
re-raise the last error after 3 invocations; a non-retryable error on the
second invocation stops immediately after one wait. -/
theorem retry_async_behavior_witness :
    retry_async (fun i => if i < 2 then CallOutcome.retryableErr "timeout"
        else CallOutcome.ok 42) 3 1 2 = (.ok 42, 3, [1, 2]) ∧
    retry_async (fun _ => (CallOutcome.retryableErr "timeout" : CallOutcome Nat)) 3 1 2
      = (.raisedLast (some "timeout"), 3, [1, 2]) ∧
    retry_async (fun i => if i < 1 then CallOutcome.retryableErr "timeout"
        else (CallOutcome.fatalErr "malformed" : CallOutcome Nat)) 3 1 2
      = (.raisedFatal "malformed", 2, [1]) := by
  refine ⟨?_, ?_, ?_⟩
  · have h := retry_async_behavior.1
      (fun i => if i < 2 then CallOutcome.retryableErr "timeout" else CallOutcome.ok 42)
      3 1 2 2 42 (by norm_num) (fun i hi => ⟨"timeout", by simp [hi]⟩) (by norm_num)
    rw [h]
    norm_num [List.range_succ]
  · have h := retry_async_behavior.2.1
      (fun _ => (CallOutcome.retryableErr "timeout" : CallOutcome Nat))
      3 1 2 (fun _ => "timeout") (by norm_num) (fun i _ => rfl)
    rw [h]
    norm_num [List.range_succ]
  · have h := retry_async_behavior.2.2
      (fun i => if i < 1 then CallOutcome.retryableErr "timeout"
        else (CallOutcome.fatalErr "malformed" : CallOutcome Nat))
      3 1 2 1 "malformed" (by norm_num) (fun i hi => ⟨"timeout", by simp [hi]⟩)
      (by norm_num)
    rw [h]
    norm_num [List.range_succ]

/-- C4: `determine_license_need` implements the spec's prioritized classifier
— sources in priority order (license text before permit text), null/empty
sources skipped, required patterns tested before not-required ones on the
first non-empty source with an immediate return on a match, `Unknown`
(`none`) when no source decides; in particular a required match in the
license text wins regardless of the permit text, which is never consulted. -/
theorem determine_license_need_correct :
    (∀ (search : String → String → Bool) (permit_text license_text : Option String),
      determine_license_need search permit_text license_text
        = classify_spec search LICENSE_REQUIRED_PATTERNS LICENSE_NOT_REQUIRED_PATTERNS
            [license_text, permit_text]) ∧
    (∀ (search : String → String → Bool) (permit_text : Option String) (lt : String),
      lt ≠ "" →
      LICENSE_REQUIRED_PATTERNS.any (fun p => search p lt.toLower) = true →
      determine_license_need search permit_text (some lt) = some true) := by
  have hne : ("permit_text" : String) ≠ "license_text" := by decide
  constructor
  · intro search permit_text license_text
    show determineLoop search permit_text license_text ["license_text", "permit_text"] = _
    simp only [determineLoop, classify_spec, check_patterns, hne, if_neg, if_pos,
      eq_self_iff_true, if_true, if_false]
    cases license_text with
    | none =>
      cases permit_text with
      | none => rfl
      | some t =>
        by_cases ht : t = ""
        · simp [ht]
        · simp [ht]
    | some t =>
      by_cases ht : t = ""
      · simp only [ht, if_pos rfl, if_true]
        cases permit_text with
        | none => rfl
        | some t₁ =>
          by_cases ht₁ : t₁ = ""
          · simp [ht₁]
          · simp [ht₁]
      · simp [ht]
        split_ifs with h₁ h₂
        · rfl
        · rfl
        · cases permit_text with
          | none => rfl
          | some t₁ =>
            by_cases ht₁ : t₁ = ""
            · simp [ht₁]
            · simp [ht₁]
  · intro search permit_text lt hlt hmatch
    show determineLoop search permit_text (some lt) ["license_text", "permit_text"] = _
    simp [determineLoop, check_patterns, hlt, hmatch]

/-- C4 witness: a license text that matches a required pattern forces
`Required` even when the permit text is present (and would itself match a
not-required pattern under the same matcher). -/
theorem determine_license_need_correct_witness :
    determine_license_need (fun _ _ => true) (some "лицензия не требуется")
      (some "подлежит лицензированию") = some true :=
  determine_license_need_correct.2 (fun _ _ => true) (some "лицензия не требуется")
    "подлежит лицензированию" (by decide) (by decide)

/-- A file whose task neither reported a (truthy) error nor produced
whitespace-only text. -/
def ocrGoodB (outcome : String → String × Option String) (f : String) : Bool :=
  !errTruthy (outcome f).2 && decide ((outcome f).1.trim ≠ "")

/-- The error-list entry a failed or empty file contributes
(ocr_extractor.py lines 85 and 90). -/
def ocrErrMsg (outcome : String → String × Option String) (f : String) : String :=
  if errTruthy (outcome f).2 then
    lastPathComponent f ++ ": " ++ ((outcome f).2.getD "")
  else
    lastPathComponent f ++ ": Empty OCR result"

lemma zip_map_self (outcome : String → String × Option String) (files : List String) :
    files.zip (files.map outcome) = files.map (fun f => (f, outcome f)) := by
  induction files with
  | nil => rfl
  | cons f rest ih => simp [ih]

lemma assembleLoop_spec (outcome : String → String × Option String)
    (files : List String) :
    assembleLoop (files.map (fun f => (f, outcome f)))
      = ((files.filter (ocrGoodB outcome)).map (fun f => (outcome f).1),
         (files.filter (ocrGoodB outcome)).map lastPathComponent,
         (files.filter (fun f => !(ocrGoodB outcome f))).map (ocrErrMsg outcome)) := by
  induction files with
  | nil => rfl
  | cons f rest ih =>
    simp only [List.map_cons, assembleLoop]
    rw [ih]
    by_cases he : errTruthy (outcome f).2
    · have hg : ocrGoodB outcome f = false := by simp [ocrGoodB, he]
      have hmsg : ocrErrMsg outcome f = lastPathComponent f ++ ": " ++ ((outcome f).2.getD "") := by
        simp [ocrErrMsg, he]
      simp [List.filter_cons, hg, he, hmsg]
    · by_cases htr : (outcome f).1.trim = ""
      · have hg : ocrGoodB outcome f = false := by simp [ocrGoodB, htr]
        have hmsg : ocrErrMsg outcome f = lastPathComponent f ++ ": Empty OCR result" := by
          simp [ocrErrMsg, he]
        simp [List.filter_cons, hg, he, htr, hmsg]
      · have hg : ocrGoodB outcome f = true := by simp [ocrGoodB, he, htr]
        simp [List.filter_cons, hg, he, htr]

/-- A pdf file whose extraction succeeded with non-whitespace text. -/
def pdfGoodB (outcome : String → PdfOutcome) (n : String) : Bool :=
  match outcome n with
  | .ok text => decide (text.trim ≠ "")
  | .extractionError _ => false

/-- The text a pdf file contributes when extraction succeeded. -/
def pdfText (outcome : String → PdfOutcome) (n : String) : String :=
  match outcome n with
  | .ok text => text
  | .extractionError _ => ""

/-- The error-list entry a failed or empty pdf file contributes
(pdf_extractor.py lines 122 and 124). -/
def pdfErrMsg (outcome : String → PdfOutcome) (n : String) : String :=
  match outcome n with
  | .ok _ => n ++ ": Empty text extracted"
  | .extractionError msg => n ++ ": " ++ msg

lemma pdfLoop_spec (outcome : String → PdfOutcome) (filenames : List String) :
    pdfLoop (filenames.map (fun n => (n, outcome n)))
      = ((filenames.filter (pdfGoodB outcome)).map (pdfText outcome),
         filenames.filter (pdfGoodB outcome),
         (filenames.filter (fun n => !(pdfGoodB outcome n))).map (pdfErrMsg outcome)) := by
  induction filenames with
  | nil => rfl
  | cons n rest ih =>
    simp only [List.map_cons, pdfLoop]
    rw [ih]
    cases ho : outcome n with
    | ok text =>
      by_cases htr : text.trim = ""
      · have hg : pdfGoodB outcome n = false := by simp [pdfGoodB, ho, htr]
        have hmsg : pdfErrMsg outcome n = n ++ ": Empty text extracted" := by
          simp [pdfErrMsg, ho]
        simp [List.filter_cons, hg, ho, htr, hmsg]
      · have hg : pdfGoodB outcome n = true := by simp [pdfGoodB, ho, htr]
        have htxt : pdfText outcome n = text := by simp [pdfText, ho]
        simp [List.filter_cons, hg, ho, htr, htxt]
    | extractionError msg =>
      have hg : pdfGoodB outcome n = false := by simp [pdfGoodB, ho]
      have hmsg : pdfErrMsg outcome n = n ++ ": " ++ msg := by simp [pdfErrMsg, ho]
      simp [List.filter_cons, hg, ho, hmsg]

/-- C5: for a unit with a non-empty file list, the combined text is the fixed
separator joined over exactly the texts of the files that produced non-empty
(non-whitespace) text, in original file-list order (`asyncio.gather` hands
results back in task order, independent of completion order); every errored
or empty file contributes exactly one entry to the per-file error list, which
is `None` exactly when every file succeeded with non-empty text.  The same
shape holds for the pdf extractor's `extract_multiple`. -/
theorem unit_assembly_correct :
    (∀ (outcome : String → String × Option String) (files : List String),
      files ≠ [] →
      process_saf_files outcome files DEFAULT_SEPARATOR
        = (String.intercalate DEFAULT_SEPARATOR
              ((files.filter (ocrGoodB outcome)).map (fun f => (outcome f).1)),
           (files.filter (ocrGoodB outcome)).map lastPathComponent,
           if files.all (ocrGoodB outcome) then none
           else some ((files.filter (fun f => !(ocrGoodB outcome f))).map
             (ocrErrMsg outcome)))) ∧
    (∀ (outcome : String → PdfOutcome) (filenames : List String),
      extract_multiple outcome filenames DEFAULT_SEPARATOR
        = (String.intercalate DEFAULT_SEPARATOR
              ((filenames.filter (pdfGoodB outcome)).map (pdfText outcome)),
           filenames.filter (pdfGoodB outcome),
           if filenames.all (pdfGoodB outcome) then none
           else some ((filenames.filter (fun n => !(pdfGoodB outcome n))).map
             (pdfErrMsg outcome)))) := by
  constructor
  · intro outcome files hne
    unfold process_saf_files
    rw [if_neg hne, zip_map_self, assembleLoop_spec]
    dsimp only
    have htext : (if ((files.filter (ocrGoodB outcome)).map (fun f => (outcome f).1)) = []
        then ""
        else String.intercalate DEFAULT_SEPARATOR
          ((files.filter (ocrGoodB outcome)).map (fun f => (outcome f).1)))
        = String.intercalate DEFAULT_SEPARATOR
            ((files.filter (ocrGoodB outcome)).map (fun f => (outcome f).1)) := by
      split_ifs with h
      · rw [h]; rfl
      · rfl
    have hiff : ((files.filter (fun f => !(ocrGoodB outcome f))).map (ocrErrMsg outcome) = [])
        ↔ files.all (ocrGoodB outcome) = true := by
      simp [List.filter_eq_nil_iff, List.all_eq_true]
    refine congrArg₂ Prod.mk htext (congrArg₂ Prod.mk rfl ?_)
    by_cases hall : files.all (ocrGoodB outcome)
    · rw [if_pos hall, if_pos (hiff.mpr hall)]
    · rw [if_neg hall, if_neg (fun hc => hall (hiff.mp hc))]
  · intro outcome filenames
    unfold extract_multiple
    rw [pdfLoop_spec]
    dsimp only
    have htext : (if ((filenames.filter (pdfGoodB outcome)).map (pdfText outcome)) = []
        then ""
        else String.intercalate DEFAULT_SEPARATOR
          ((filenames.filter (pdfGoodB outcome)).map (pdfText outcome)))
        = String.intercalate DEFAULT_SEPARATOR
            ((filenames.filter (pdfGoodB outcome)).map (pdfText outcome)) := by
      split_ifs with h
      · rw [h]; rfl
      · rfl
    have hiff : ((filenames.filter (fun n => !(pdfGoodB outcome n))).map (pdfErrMsg outcome) = [])
        ↔ filenames.all (pdfGoodB outcome) = true := by
      simp [List.filter_eq_nil_iff, List.all_eq_true]
    refine congrArg₂ Prod.mk htext (congrArg₂ Prod.mk rfl ?_)
    by_cases hall : filenames.all (pdfGoodB outcome)
    · rw [if_pos hall, if_pos (hiff.mpr hall)]
    · rw [if_neg hall, if_neg (fun hc => hall (hiff.mp hc))]

/-- The per-file outcomes used by the C5 witness: one good file, one errored
file, one good file. -/
def witnessOutcome : String → String × Option String :=
  fun f => if f = "a/1.pdf" then ("T1", none)
    else if f = "a/2.pdf" then ("", some "boom") else ("T3", none)

/-- C5 witness: three files of one unit — one good, one errored, one good —
assemble per the characterization, in file order. -/
theorem unit_assembly_correct_witness :
    (["a/1.pdf", "a/2.pdf", "a/3.pdf"] : List String) ≠ [] ∧
    process_saf_files witnessOutcome ["a/1.pdf", "a/2.pdf", "a/3.pdf"] DEFAULT_SEPARATOR
      = (String.intercalate DEFAULT_SEPARATOR
            ((["a/1.pdf", "a/2.pdf", "a/3.pdf"].filter (ocrGoodB witnessOutcome)).map
              (fun f => (witnessOutcome f).1)),
         (["a/1.pdf", "a/2.pdf", "a/3.pdf"].filter
           (ocrGoodB witnessOutcome)).map lastPathComponent,
         if ["a/1.pdf", "a/2.pdf", "a/3.pdf"].all (ocrGoodB witnessOutcome) then none
         else some ((["a/1.pdf", "a/2.pdf", "a/3.pdf"].filter
           (fun f => !(ocrGoodB witnessOutcome f))).map (ocrErrMsg witnessOutcome))) :=
  ⟨by decide,
   unit_assembly_correct.1 witnessOutcome ["a/1.pdf", "a/2.pdf", "a/3.pdf"] (by decide)⟩

/-- C2 counterexample: in incremental mode with an existing prior dataset and
an *empty* new result set, the guard `not df_new.empty` skips the merge and
the prior dataset is overwritten by the empty new set — the record `A`,
whose id is not in the new result set, is not carried over. -/
theorem merge_empty_new_drops_prior :
    merge_results true (some [⟨"A", "old"⟩]) [] = [] ∧
    (⟨"A", "old"⟩ : DataRecord) ∉ merge_results true (some [⟨"A", "old"⟩]) [] := by
  constructor
  · rfl
  · decide

lemma recordKeys_append (l₁ l₂ : List DataRecord) :
    recordKeys (l₁ ++ l₂) = recordKeys l₁ ++ recordKeys l₂ := by
  simp [recordKeys]

/-- C2 (amended): in incremental mode, when the prior consolidated dataset
exists and the new result set is non-empty, the merge drops every prior
record whose unit id occurs in the new set and appends the new records: the
result has one record per unit id (given well-keyed inputs), the new run's
record wins for every id it contains, prior records with ids outside the new
set are carried over unchanged, and nothing else appears. -/
theorem merge_incremental_supersede (prior df_new : List DataRecord)
    (hne : df_new ≠ [])
    (hp : (recordKeys prior).Nodup) (hn : (recordKeys df_new).Nodup) :
    (recordKeys (merge_results true (some prior) df_new)).Nodup ∧
    (∀ id ∈ recordKeys df_new,
      recordLookup (merge_results true (some prior) df_new) id
        = recordLookup df_new id) ∧
    (∀ r ∈ prior, r.saf_number ∉ recordKeys df_new →
      r ∈ merge_results true (some prior) df_new) ∧
    (∀ r ∈ merge_results true (some prior) df_new, r ∈ prior ∨ r ∈ df_new) := by
  have hm : merge_results true (some prior) df_new
      = prior.filter (fun r => decide (r.saf_number ∉ recordKeys df_new)) ++ df_new := by
    simp [merge_results, hne]
  rw [hm]
  refine ⟨?_, ?_, ?_, ?_⟩
  · rw [recordKeys_append]
    refine List.Nodup.append ?_ hn ?_
    · have hsub : (prior.filter
          (fun r => decide (r.saf_number ∉ recordKeys df_new))).Sublist prior :=
        List.filter_sublist prior
      have : (recordKeys (prior.filter
          (fun r => decide (r.saf_number ∉ recordKeys df_new)))).Sublist (recordKeys prior) :=
        List.Sublist.map DataRecord.saf_number hsub
      exact this.nodup hp
    · rw [List.disjoint_left]
      intro a ha
      rcases List.mem_map.mp ha with ⟨r, hr, hfst⟩
      have := (List.mem_filter.mp hr).2
      rw [← hfst]
      simpa using this
  · intro id hid
    have hnone : (prior.filter
        (fun r => decide (r.saf_number ∉ recordKeys df_new))).find?
          (fun r => decide (r.saf_number = id)) = none := by
      rw [List.find?_eq_none]
      intro r hr
      have hpred := (List.mem_filter.mp hr).2
      simp only [decide_eq_true_eq] at hpred ⊢
      intro heq
      exact hpred (heq ▸ hid)
    simp only [recordLookup]
    rw [List.find?_append, hnone]
    rfl
  · intro r hr hout
    refine List.mem_append_left _ (List.mem_filter.mpr ⟨hr, ?_⟩)
    simpa using hout
  · intro r hr
    rcases List.mem_append.mp hr with h | h
    · exact Or.inl (List.mem_filter.mp h).1
    · exact Or.inr h

/-- C2 witness: prior dataset `[A:"old", B:"keep"]`, new run `[A:"new"]` —
`A` resolves to the new record and `B` is carried over. -/
theorem merge_incremental_supersede_witness :
    recordLookup (merge_results true (some [⟨"A", "old"⟩, ⟨"B", "keep"⟩]) [⟨"A", "new"⟩]) "A"
      = recordLookup [(⟨"A", "new"⟩ : DataRecord)] "A" ∧
    (⟨"B", "keep"⟩ : DataRecord)
      ∈ merge_results true (some [⟨"A", "old"⟩, ⟨"B", "keep"⟩]) [⟨"A", "new"⟩] := by
  have h := merge_incremental_supersede [⟨"A", "old"⟩, ⟨"B", "keep"⟩] [⟨"A", "new"⟩]
    (by decide) (by decide) (by decide)
  exact ⟨h.2.1 "A" (by decide), h.2.2.1 ⟨"B", "keep"⟩ (by decide) (by decide)⟩

/-- C8: `load()` hands back the persisted state whenever the state file
exists and parses, synthesizes the fresh initial state only when the file is
absent, and surfaces a `DataIntegrityError` (the uncaught parse failure)
when the persisted document cannot be parsed — never a silent reset. -/
theorem load_behavior {σ : Type} :
    (∀ (parse : String → Option σ) (initial : σ),
      load parse initial none = .ok initial) ∧
    (∀ (parse : String → Option σ) (initial : σ) (raw : String) (s : σ),
      parse raw = some s → load parse initial (some raw) = .ok s) ∧
    (∀ (parse : String → Option σ) (initial : σ) (raw : String),
      parse raw = none → load parse initial (some raw) = .dataIntegrityError) := by
  refine ⟨fun _ _ => rfl, ?_, ?_⟩
  · intro parse initial raw s h
    simp [load, h]
  · intro parse initial raw h
    simp [load, h]

/-- C8 witness: a parseable file loads its content, an unparseable one fails
with the integrity error rather than falling back to the initial state. -/
theorem load_behavior_witness :
    load (fun r => if r = "good" then some 7 else none) 0 (some "good")
      = LoadOutcome.ok 7 ∧
    load (fun r => if r = "good" then some 7 else none) 0 (some "corrupt")
      = LoadOutcome.dataIntegrityError :=
  ⟨load_behavior.2.1 (fun r => if r = "good" then some 7 else none) 0 "good" 7 (by decide),
   load_behavior.2.2 (fun r => if r = "good" then some 7 else none) 0 "corrupt" (by decide)⟩

lemma countRunning_set_start (l : List TaskPhase) (i : Nat)
    (h : l[i]? = some TaskPhase.idle) :
    (l.set i TaskPhase.running).countP (fun t => decide (t = TaskPhase.running))
      = l.countP (fun t => decide (t = TaskPhase.running)) + 1 := by
  induction l generalizing i with
  | nil => simp at h
  | cons hd tl ih =>
    cases i with
    | zero =>
      simp only [List.getElem?_cons_zero, Option.some.injEq] at h
      subst h
      simp [List.set, List.countP_cons]
    | succ j =>
      simp only [List.getElem?_cons_succ] at h
      simp only [List.set, List.countP_cons, ih j h]
      omega

lemma countRunning_set_finish (l : List TaskPhase) (i : Nat)
    (h : l[i]? = some TaskPhase.running) :
    (l.set i TaskPhase.done).countP (fun t => decide (t = TaskPhase.running)) + 1
      = l.countP (fun t => decide (t = TaskPhase.running)) := by
  induction l generalizing i with
  | nil => simp at h
  | cons hd tl ih =>
    cases i with
    | zero =>
      simp only [List.getElem?_cons_zero, Option.some.injEq] at h
      subst h
      simp [List.set, List.countP_cons]
    | succ j =>
      simp only [List.getElem?_cons_succ] at h
      simp only [List.set, List.countP_cons, ← ih j h]
      omega

/-- C9: in every scheduler state reachable during a run, the number of
in-flight extraction calls plus the semaphore's available permits equals the
configured limit `c`, so at no point are more than `c` calls in flight —
one shared limiter bounds the whole run across all units. -/
theorem semaphore_bound (c numTasks : Nat) (s : SemState)
    (h : SemReachable c numTasks s) :
    inFlightCount s + s.avail = c ∧ inFlightCount s ≤ c := by
  have hmain : inFlightCount s + s.avail = c := by
    induction h with
    | refl =>
      have hz : (List.replicate numTasks TaskPhase.idle).countP
          (fun t => decide (t = TaskPhase.running)) = 0 := by
        rw [List.countP_eq_zero]
        intro a ha
        rw [List.eq_of_mem_replicate ha]
        decide
      simp [semInit, inFlightCount, hz]
    | tail hsteps hstep ih =>
      cases hstep with
      | start tasks n i hidle =>
        have hc := countRunning_set_start tasks i hidle
        simp only [inFlightCount] at ih ⊢
        omega
      | finish tasks n i hrun =>
        have hc := countRunning_set_finish tasks i hrun
        simp only [inFlightCount] at ih ⊢
        omega
  exact ⟨hmain, by omega⟩

/-- C9 witness: with `c = 2` and three tasks, the trace that starts two tasks
reaches a state with both permits taken, and the bound 2 holds there. -/
theorem semaphore_bound_witness :
    inFlightCount ⟨[TaskPhase.running, TaskPhase.running, TaskPhase.idle], 0⟩ = 2 ∧
    inFlightCount ⟨[TaskPhase.running, TaskPhase.running, TaskPhase.idle], 0⟩ ≤ 2 := by
  have h₁ : SemStep (semInit 2 3)
      ⟨[TaskPhase.running, TaskPhase.idle, TaskPhase.idle], 1⟩ :=
    SemStep.start [TaskPhase.idle, TaskPhase.idle, TaskPhase.idle] 1 0 rfl
  have h₂ : SemStep ⟨[TaskPhase.running, TaskPhase.idle, TaskPhase.idle], 1⟩
      ⟨[TaskPhase.running, TaskPhase.running, TaskPhase.idle], 0⟩ :=
    SemStep.start [TaskPhase.running, TaskPhase.idle, TaskPhase.idle] 0 1 rfl
  have hreach : SemReachable 2 3
      ⟨[TaskPhase.running, TaskPhase.running, TaskPhase.idle], 0⟩ :=
    Relation.ReflTransGen.tail (Relation.ReflTransGen.tail Relation.ReflTransGen.refl h₁) h₂
  exact ⟨by decide, (semaphore_bound 2 3 _ hreach).2⟩
